import Mathlib

/-!
Shallow embedding of the CHIP-8 interpreter core
(`src/chip8/interpreter.rs`) and verification of the specification's
claims about it.

Machine bytes are modelled as `Nat` values, truncated with `% 256`
exactly where the Rust `u8` type truncates (the shifted straddling
sprite byte); memory and the register file are modelled as functions
`Nat → Nat`, with the Rust bounds checks of array indexing made
explicit (`memRead`).  Every Rust panic — indexing out of bounds,
checked `u8` addition overflowing, the two `unsupported opcode`
panics — is modelled as a `Fault`, so `execute_cycle` returns
`Except Fault Interpreter`.
-/

namespace Chip8

/-- The ways `execute_cycle` can panic in the Rust source: the catch-all
`Unsupported opcode: {:04X}` panic (which reports the full 16-bit opcode),
the `Unsupported 0x8000 bit: {:01X}` panic (which reports only the low
nibble), checked `u8` addition overflow in `7xkk`, and an array index out
of the `[u8; 4096]` memory bounds. -/
inductive Fault where
  | unsupportedOpcode (op : Nat)
  | unsupportedAluOp (lowNibble : Nat)
  | addOverflow (registerIndex sum : Nat)
  | memOutOfBounds (addr : Nat)
deriving DecidableEq

/-- The error value returned by `load_program` when the ROM does not fit:
the Rust code formats a string from the requested length and the available
space; we keep the two numbers structurally. -/
inductive LoadError where
  | capacityExceeded (requested available : Nat)
deriving DecidableEq

/-- The interpreter state of the Rust `struct Interpreter`.  `memory`
models `[u8; 4096]` (meaningful at addresses `< 4096`), `registers`
models `[u8; 16]` (meaningful at indices `< 16`). -/
structure Interpreter where
  memory : Nat → Nat
  registers : Nat → Nat
  index_register : Nat
  program_counter : Nat

/-- The 16 five-byte font glyphs copied to the start of memory by `new`. -/
def characterRom : List Nat :=
  [0xF0, 0x90, 0x90, 0x90, 0xF0,
   0x20, 0x60, 0x20, 0x20, 0x70,
   0xF0, 0x10, 0xF0, 0x80, 0xF0,
   0xF0, 0x10, 0xF0, 0x10, 0xF0,
   0x90, 0x90, 0xF0, 0x10, 0x10,
   0xF0, 0x80, 0xF0, 0x10, 0xF0,
   0xF0, 0x80, 0xF0, 0x90, 0xF0,
   0xF0, 0x10, 0x20, 0x40, 0x40,
   0xF0, 0x90, 0xF0, 0x90, 0xF0,
   0xF0, 0x90, 0xF0, 0x10, 0xF0,
   0xF0, 0x90, 0xF0, 0x90, 0x90,
   0xE0, 0x90, 0xE0, 0x90, 0xE0,
   0xF0, 0x80, 0x80, 0x80, 0xF0,
   0xE0, 0x90, 0x90, 0x90, 0xE0,
   0xF0, 0x80, 0xF0, 0x80, 0xF0,
   0xF0, 0x80, 0xF0, 0x80, 0x80]

/-- `Interpreter::new()`: zeroed memory with the font copied to offset 0,
zeroed registers, index register 0, program counter `0x200`. -/
def Interpreter.new : Interpreter :=
  { memory := fun a => characterRom.getD a 0
    registers := fun _ => 0
    index_register := 0x00
    program_counter := 0x200 }

/-- `load_program`: copies the ROM bytes to memory starting at `0x200`
after checking the capacity bound.  Mirroring the Rust `&mut self`
method returning `Result<(), String>`, it returns the (possibly
unchanged) state together with an optional error. -/
def load_program (s : Interpreter) (rom_data : List Nat) :
    Interpreter × Option LoadError :=
  let program_offset := 0x200
  let available_space := 4096 - program_offset
  if rom_data.length > available_space then
    (s, some (.capacityExceeded rom_data.length available_space))
  else
    ({ s with memory := fun a =>
        if program_offset ≤ a ∧ a < program_offset + rom_data.length then
          rom_data.getD (a - program_offset) 0
        else s.memory a },
     none)

/-- Bounds-checked memory read: Rust's `self.memory[idx]` panics when
`idx ≥ 4096`. -/
def memRead (s : Interpreter) (a : Nat) : Except Fault Nat :=
  if a < 4096 then .ok (s.memory a) else .error (.memOutOfBounds a)

/-- Store a byte at a memory address (the bounds check of each Rust
write is performed by the `memRead` of the same address that every
write site makes first, via `^=` or explicitly). -/
def memWrite (s : Interpreter) (a v : Nat) : Interpreter :=
  { s with memory := fun x => if x = a then v else s.memory x }

/-- Store a value in a register (decoded register indices are 4-bit, so
the Rust `[u8; 16]` indexing cannot fail). -/
def setReg (s : Interpreter) (j v : Nat) : Interpreter :=
  { s with registers := fun x => if x = j then v else s.registers x }

/-- `step_to_next_instruction`: advance the program counter by 2. -/
def step_to_next_instruction (s : Interpreter) : Interpreter :=
  { s with program_counter := s.program_counter + 2 }

/-- One iteration of the `Dxyn` sprite loop (`for byte in 0..nibble`),
for loop variable `k`: read the sprite byte at `i + k`, XOR the high
part into the framebuffer byte at `0xF00 + display_offset`, and, when
the column bit offset and the shifted-left remainder are both non-zero,
XOR the low part into the next framebuffer byte; the collision register
15 accumulates by OR.  The `% 256` truncation is the Rust `u8` left
shift. -/
def drawByte (i vx vy k : Nat) (s : Interpreter) : Except Fault Interpreter :=
  let row_index := (vy + k) % 32
  let column_index := vx % 64
  match memRead s (i + k) with
  | .error e => .error e
  | .ok value =>
    let byte_remainder := column_index % 8
    let first_byte := value >>> byte_remainder
    let display_offset := row_index * 8 + column_index / 8
    match memRead s (0xF00 + display_offset) with
    | .error e => .error e
    | .ok fb =>
      let s1 := memWrite (setReg s 0xF (s.registers 0xF ||| (first_byte &&& fb)))
        (0xF00 + display_offset) (fb ^^^ first_byte)
      if 0 < byte_remainder then
        let second_byte := (value <<< (8 - byte_remainder)) % 256
        if 0 < second_byte then
          match memRead s1 (0xF00 + display_offset + 1) with
          | .error e => .error e
          | .ok fb2 =>
            .ok (memWrite (setReg s1 0xF (s1.registers 0xF ||| (second_byte &&& fb2)))
              (0xF00 + display_offset + 1) (fb2 ^^^ second_byte))
        else .ok s1
      else .ok s1

/-- The `Dxyn` sprite loop: iterate `drawByte` for `k, k+1, …` while the
remaining-iteration count decreases; `drawLoop i vx vy 0 n` is the Rust
`for byte in 0..nibble`. -/
def drawLoop (i vx vy : Nat) : Nat → Nat → Interpreter → Except Fault Interpreter
  | _, 0, s => .ok s
  | k, cnt+1, s =>
    match drawByte i vx vy k s with
    | .error e => .error e
    | .ok t => drawLoop i vx vy (k+1) cnt t

/-- The dispatch on the already-fetched opcode: the ordered Rust `match`
on the four nibbles rendered as an ordered chain of tests.  Note that,
exactly as in the source, the `0x5` arm ignores the low nibble, the
`0x8` arm traps on low nibbles above 3 reporting only that nibble, `7xkk`
performs plain (checked) addition, and in `Dxyn` the operands `vx`, `vy`
are read before register 15 is reset. -/
def execDecoded (s : Interpreter) (opcode : Nat) : Except Fault Interpreter :=
  let n3 := (opcode &&& 0xF000) >>> 12
  let n2 := (opcode &&& 0x0F00) >>> 8
  let n1 := (opcode &&& 0x00F0) >>> 4
  let n0 := opcode &&& 0x000F
  if n3 = 0x0 ∧ n2 = 0x0 ∧ n1 = 0xE ∧ n0 = 0x0 then
    .ok (step_to_next_instruction
      { s with memory := fun a => if 0xF00 ≤ a ∧ a < 0xF00 + 256 then 0x00 else s.memory a })
  else if n3 = 0x1 then
    .ok { s with program_counter := opcode &&& 0x0FFF }
  else if n3 = 0x3 then
    if s.registers n2 = opcode &&& 0x00FF then
      .ok { s with program_counter := s.program_counter + 4 }
    else .ok (step_to_next_instruction s)
  else if n3 = 0x4 then
    if s.registers n2 ≠ opcode &&& 0x00FF then
      .ok { s with program_counter := s.program_counter + 4 }
    else .ok (step_to_next_instruction s)
  else if n3 = 0x5 then
    if s.registers n2 = s.registers n1 then
      .ok { s with program_counter := s.program_counter + 4 }
    else .ok (step_to_next_instruction s)
  else if n3 = 0x6 then
    .ok (step_to_next_instruction (setReg s n2 (opcode &&& 0x00FF)))
  else if n3 = 0x7 then
    if 255 < s.registers n2 + (opcode &&& 0x00FF) then
      .error (.addOverflow n2 (s.registers n2 + (opcode &&& 0x00FF)))
    else .ok (step_to_next_instruction (setReg s n2 (s.registers n2 + (opcode &&& 0x00FF))))
  else if n3 = 0x8 then
    if n0 = 0 then .ok (step_to_next_instruction (setReg s n2 (s.registers n1)))
    else if n0 = 1 then
      .ok (step_to_next_instruction (setReg s n2 (s.registers n2 ||| s.registers n1)))
    else if n0 = 2 then
      .ok (step_to_next_instruction (setReg s n2 (s.registers n2 &&& s.registers n1)))
    else if n0 = 3 then
      .ok (step_to_next_instruction (setReg s n2 (s.registers n2 ^^^ s.registers n1)))
    else .error (.unsupportedAluOp n0)
  else if n3 = 0xA then
    .ok (step_to_next_instruction { s with index_register := opcode &&& 0x0FFF })
  else if n3 = 0xD then
    match drawLoop s.index_register (s.registers n2) (s.registers n1) 0 n0
        (setReg s 0xF 0) with
    | .error e => .error e
    | .ok t => .ok (step_to_next_instruction t)
  else .error (.unsupportedOpcode opcode)

/-- `execute_cycle`: fetch the two bytes at the program counter,
concatenate them big-endian, and dispatch. -/
def execute_cycle (s : Interpreter) : Except Fault Interpreter :=
  match memRead s s.program_counter with
  | .error e => .error e
  | .ok high_byte =>
    match memRead s (s.program_counter + 1) with
    | .error e => .error e
    | .ok low_byte => execDecoded s ((high_byte <<< 8) ||| low_byte)

/-- The 16-bit opcode currently under the program counter (the value the
fetch produces when it is in bounds). -/
def opcodeAt (s : Interpreter) : Nat :=
  (s.memory s.program_counter <<< 8) ||| s.memory (s.program_counter + 1)

/-- States reachable from `new()` by loading program bytes and executing
cycles. -/
inductive Reachable : Interpreter → Prop where
  | init : Reachable Interpreter.new
  | load (s s' : Interpreter) (rom : List Nat) :
      Reachable s → load_program s rom = (s', none) → Reachable s'
  | step (s s' : Interpreter) :
      Reachable s → execute_cycle s = .ok s' → Reachable s'

/-- The state after a successful `load_program` (the unchanged state on
failure). -/
def loadD (s : Interpreter) (rom : List Nat) : Interpreter :=
  (load_program s rom).1

/-- The state after a successful `execute_cycle` (the unchanged state on
a fault), used to name states of concrete runs. -/
def stepD (s : Interpreter) : Interpreter :=
  match execute_cycle s with
  | .ok t => t
  | .error _ => s

/-- Whether a cycle completed without a fault. -/
def isOkB (r : Except Fault Interpreter) : Bool :=
  match r with
  | .ok _ => true
  | .error _ => false

/-! ### The draw, described as a sequence of applied parts

The spec and the claims describe `Dxyn` as applying a sequence of
`(framebuffer address, part)` XOR writes, with the collision flag
accumulating `part AND existing framebuffer byte` over the applied
parts.  The following definitions render that description; the lemmas
below prove that `drawByte`/`drawLoop` realise it. -/

/-- The framebuffer byte address holding the leftmost bit of sprite row
`k`: `0xF00 + row * 8 + column / 8`. -/
def baseOff (vx vy k : Nat) : Nat :=
  0xF00 + (((vy + k) % 32) * 8 + (vx % 64) / 8)

/-- The applied parts of sprite row `k`, as described by the spec: the
high part `byte >> (column % 8)` at the row's framebuffer byte, and,
when the column offset and the `u8`-truncated low part
`byte << (8 - column % 8)` are both non-zero, the low part at the next
framebuffer byte. -/
def partList (i vx vy k : Nat) (mem : Nat → Nat) : List (Nat × Nat) :=
  let row_index := (vy + k) % 32
  let column_index := vx % 64
  let value := mem (i + k)
  let byte_remainder := column_index % 8
  let first_byte := value >>> byte_remainder
  let display_offset := row_index * 8 + column_index / 8
  let second_byte := (value <<< (8 - byte_remainder)) % 256
  (0xF00 + display_offset, first_byte) ::
    (if 0 < byte_remainder ∧ 0 < second_byte
     then [(0xF00 + display_offset + 1, second_byte)] else [])

/-- XOR one part into a memory function. -/
def applyPartMem (mem : Nat → Nat) (p : Nat × Nat) : Nat → Nat :=
  fun a => if a = p.1 then mem p.1 ^^^ p.2 else mem a

/-- Apply one part to the interpreter state: OR `part AND existing byte`
into register 15 and XOR the part into the framebuffer byte. -/
def applyPart (s : Interpreter) (p : Nat × Nat) : Interpreter :=
  memWrite (setReg s 0xF (s.registers 0xF ||| (p.2 &&& s.memory p.1)))
    p.1 (s.memory p.1 ^^^ p.2)

/-- All parts applied by the draw from row `k` for `cnt` rows, each row's
sprite byte read from the memory as already updated by the earlier rows
(exactly the order the loop performs). -/
def partsFrom (i vx vy : Nat) : Nat → Nat → (Nat → Nat) → List (Nat × Nat)
  | _, 0, _ => []
  | k, cnt+1, mem =>
    partList i vx vy k mem ++
      partsFrom i vx vy (k+1) cnt ((partList i vx vy k mem).foldl applyPartMem mem)

/-- Like `partsFrom`, but with every sprite byte read from the one fixed
memory; coincides with `partsFrom` when the sprite source does not
overlap the framebuffer bytes being written. -/
def partsPre (i vx vy : Nat) : Nat → Nat → (Nat → Nat) → List (Nat × Nat)
  | _, 0, _ => []
  | k, cnt+1, mem =>
    partList i vx vy k mem ++ partsPre i vx vy (k+1) cnt mem

/-- The collision terms `part AND framebuffer byte at application time`,
in application order. -/
def collTerms : (Nat → Nat) → List (Nat × Nat) → List Nat
  | _, [] => []
  | mem, p :: ps => (p.2 &&& mem p.1) :: collTerms (applyPartMem mem p) ps

/-- Bitwise OR of a list. -/
def orAll : List Nat → Nat
  | [] => 0
  | t :: ts => t ||| orAll ts

/-- The final value of the collision register: the OR of all collision
terms. -/
def collOr (mem : Nat → Nat) (ps : List (Nat × Nat)) : Nat :=
  orAll (collTerms mem ps)

/-- The XOR of all parts applied at a given address. -/
def xorAt : List (Nat × Nat) → Nat → Nat
  | [], _ => 0
  | p :: ps, a => (if p.1 = a then p.2 else 0) ^^^ xorAt ps a

/-- All memory accesses of sprite row `k` are within the 4096-byte
memory: the sprite byte read at `i + k`, and every part's framebuffer
address. -/
def byteOk (i vx vy k : Nat) (mem : Nat → Nat) : Bool :=
  decide (i + k < 4096) &&
    (partList i vx vy k mem).all (fun p => decide (p.1 < 4096))

/-- All memory accesses of the whole draw are within bounds, row by row
in execution order. -/
def loopOk (i vx vy : Nat) : Nat → Nat → (Nat → Nat) → Bool
  | _, 0, _ => true
  | k, cnt+1, mem =>
    byteOk i vx vy k mem &&
      loopOk i vx vy (k+1) cnt ((partList i vx vy k mem).foldl applyPartMem mem)

/-- The set of opcodes the dispatcher actually recognizes (note: every
`5xyn`, not only `5xy0`; `8xyk` only for `k ≤ 3`). -/
def recognizedOp (op : Nat) : Bool :=
  let n3 := (op &&& 0xF000) >>> 12
  let n2 := (op &&& 0x0F00) >>> 8
  let n1 := (op &&& 0x00F0) >>> 4
  let n0 := op &&& 0x000F
  (decide (n3 = 0x0) && decide (n2 = 0x0) && decide (n1 = 0xE) && decide (n0 = 0x0)) ||
    decide (n3 = 0x1) || decide (n3 = 0x3) || decide (n3 = 0x4) || decide (n3 = 0x5) ||
    decide (n3 = 0x6) || decide (n3 = 0x7) || (decide (n3 = 0x8) && decide (n0 ≤ 3)) ||
    decide (n3 = 0xA) || decide (n3 = 0xD)

/-- The result of the three `8xyk` logical opcodes, `k ∈ {1,2,3}`. -/
def aluOp (k a b : Nat) : Nat :=
  if k = 1 then a ||| b else if k = 2 then a &&& b else a ^^^ b

/-- The memory function after a successful `load_program`: the ROM bytes
overlaid at `0x200`. -/
def loadedMem (s : Interpreter) (rom : List Nat) : Nat → Nat := fun a =>
  if 0x200 ≤ a ∧ a < 0x200 + rom.length then rom.getD (a - 0x200) 0 else s.memory a

/-!  ### Concrete states used to instantiate the claims -/

/-- Memory or register file built from a list of byte values (absent
entries are zero). -/
def memList (l : List Nat) : Nat → Nat := fun a => l.getD a 0

/-- A literal interpreter state. -/
def stVals (mem regs : List Nat) (ir pc : Nat) : Interpreter :=
  { memory := memList mem, registers := memList regs,
    index_register := ir, program_counter := pc }

/-- `new()` with opcode `D015` loaded: draw the font glyph for 0 at the
origin. -/
def c1s : Interpreter := loadD Interpreter.new [0xD0, 0x15]

/-- A 3585-byte ROM, one byte over the program capacity. -/
def c2romBig : List Nat := List.replicate 3585 0xFF

/-- `new()` with opcode `E000` loaded (an unrecognized opcode). -/
def c3s : Interpreter := loadD Interpreter.new [0xE0, 0x00]

/-- `new()` with opcode `5011` loaded: outside the spec's recognized set,
but accepted by the code's `(0x5, _, _, _)` arm. -/
def c3cex : Interpreter := loadD Interpreter.new [0x50, 0x11]

/-- `new()` with two consecutive `D001` draws loaded: the same one-byte
sprite (`memory[0] = 0xF0`, the font) drawn twice at the origin. -/
def c4s : Interpreter := loadD Interpreter.new [0xD0, 0x01, 0xD0, 0x01]

/-- Memory with a one-byte sprite `F0` at `0x100`, the framebuffer byte
at `0xF00` already holding `F0` (all sprite pixels already set), and two
consecutive `D001` draws at `0x200`. -/
def c4cexMem : Nat → Nat := fun a =>
  if a = 0x100 then 0xF0 else if a = 0xF00 then 0xF0
  else if a = 0x200 then 0xD0 else if a = 0x201 then 0x01
  else if a = 0x202 then 0xD0 else if a = 0x203 then 0x01 else 0

/-- State about to execute the first of two identical draws whose sprite
pixels are all already set on the framebuffer. -/
def c4cex : Interpreter :=
  { memory := c4cexMem, registers := fun _ => 0,
    index_register := 0x100, program_counter := 0x200 }

/-- `new()` with opcode `00E0` loaded. -/
def c5w : Interpreter := loadD Interpreter.new [0x00, 0xE0]

/-- The state reached from `new()` by loading `1201` and executing one
cycle: the jump leaves the program counter at the odd address `0x201`. -/
def c5cex : Interpreter := stepD (loadD Interpreter.new [0x12, 0x01])

/-- Opcode `8013` (V0 := V0 XOR V1) with `V0 = 5`, `V1 = 3`. -/
def c6s : Interpreter := stVals [0x80, 0x13] [5, 3] 0 0

/-- Opcode `8003` (V0 := V0 XOR V0) with `V0 = 1`: the `x = y` case. -/
def c6cex : Interpreter := stVals [0x80, 0x03] [1] 0 0

/-- Opcode `7012` with `V0 = 0x0F`: addition that stays within 8 bits. -/
def c7s : Interpreter := stVals [0x70, 0x12] [0x0F] 0 0

/-- Opcode `70FF` with `V0 = 1`: addition overflowing 8 bits. -/
def c7o : Interpreter := stVals [0x70, 0xFF] [0x01] 0 0

/-- Opcode `3007` with `V0 = 7`: a satisfied `3xkk` skip. -/
def c8s : Interpreter := stVals [0x30, 0x07] [0x07] 0 0

/-- Program that sets `V0 = 63`, `V1 = 31`, `I = 0x200` and draws one
sprite row at column 63, row 31: the straddling write then indexes
memory at 4096. -/
def c9rom : List Nat := [0x60, 0x3F, 0x61, 0x1F, 0xA2, 0x00, 0xD0, 0x11]

/-- The state after loading `c9rom` and executing its three set-up
cycles; the next cycle is the out-of-bounds draw. -/
def c9s : Interpreter := stepD (stepD (stepD (loadD Interpreter.new c9rom)))

/-- The state after `new()`, loading `1FFF` and executing it: the
program counter is 4095. -/
def c10s : Interpreter := stepD (loadD Interpreter.new [0x1F, 0xFF])

/-- A bare state whose program counter is 4095. -/
def c10w : Interpreter := stVals [] [] 0 4095

/-! ### Basic lemmas about the state operations -/

lemma applyPart_memory (s : Interpreter) (p : Nat × Nat) :
    (applyPart s p).memory = applyPartMem s.memory p := rfl

lemma applyPart_reg15 (s : Interpreter) (p : Nat × Nat) :
    (applyPart s p).registers 0xF = s.registers 0xF ||| (p.2 &&& s.memory p.1) := by
  simp [applyPart, memWrite, setReg]

lemma applyPart_reg_ne (s : Interpreter) (p : Nat × Nat) (j : Nat) (h : j ≠ 0xF) :
    (applyPart s p).registers j = s.registers j := by
  simp [applyPart, memWrite, setReg, h]

lemma applyPart_pc (s : Interpreter) (p : Nat × Nat) :
    (applyPart s p).program_counter = s.program_counter := rfl

lemma applyPart_idx (s : Interpreter) (p : Nat × Nat) :
    (applyPart s p).index_register = s.index_register := rfl

lemma foldl_applyPart_memory (ps : List (Nat × Nat)) :
    ∀ s : Interpreter, (List.foldl applyPart s ps).memory =
      List.foldl applyPartMem s.memory ps := by
  induction ps with
  | nil => intro s; rfl
  | cons p ps ih =>
    intro s
    simp only [List.foldl_cons]
    rw [ih, applyPart_memory]

lemma collOr_cons (mem : Nat → Nat) (p : Nat × Nat) (ps : List (Nat × Nat)) :
    collOr mem (p :: ps) = (p.2 &&& mem p.1) ||| collOr (applyPartMem mem p) ps := rfl

lemma foldl_applyPart_reg15 (ps : List (Nat × Nat)) :
    ∀ s : Interpreter, (List.foldl applyPart s ps).registers 0xF =
      s.registers 0xF ||| collOr s.memory ps := by
  induction ps with
  | nil => intro s; simp [collOr, collTerms, orAll]
  | cons p ps ih =>
    intro s
    simp only [List.foldl_cons]
    rw [ih, applyPart_reg15, applyPart_memory, collOr_cons, Nat.lor_assoc]

lemma foldl_applyPart_reg_ne (ps : List (Nat × Nat)) :
    ∀ (s : Interpreter) (j : Nat), j ≠ 0xF →
      (List.foldl applyPart s ps).registers j = s.registers j := by
  induction ps with
  | nil => intro s j _; rfl
  | cons p ps ih =>
    intro s j h
    simp only [List.foldl_cons]
    rw [ih _ _ h, applyPart_reg_ne _ _ _ h]

lemma foldl_applyPart_pc (ps : List (Nat × Nat)) :
    ∀ s : Interpreter, (List.foldl applyPart s ps).program_counter =
      s.program_counter := by
  induction ps with
  | nil => intro s; rfl
  | cons p ps ih =>
    intro s
    simp only [List.foldl_cons]
    rw [ih, applyPart_pc]

lemma foldl_applyPart_idx (ps : List (Nat × Nat)) :
    ∀ s : Interpreter, (List.foldl applyPart s ps).index_register =
      s.index_register := by
  induction ps with
  | nil => intro s; rfl
  | cons p ps ih =>
    intro s
    simp only [List.foldl_cons]
    rw [ih, applyPart_idx]

lemma or_eq_zero_iff (x y : Nat) : x ||| y = 0 ↔ x = 0 ∧ y = 0 := by
  constructor
  · intro h
    have hx : ∀ i, x.testBit i = false ∧ y.testBit i = false := by
      intro i
      have hb := congrArg (fun t => t.testBit i) h
      simp only [Nat.testBit_or, Nat.zero_testBit, Bool.or_eq_false_iff] at hb
      exact hb
    constructor
    · exact Nat.eq_of_testBit_eq fun i => by simp [(hx i).1]
    · exact Nat.eq_of_testBit_eq fun i => by simp [(hx i).2]
  · rintro ⟨rfl, rfl⟩; rfl

lemma orAll_eq_zero_iff (ts : List Nat) : orAll ts = 0 ↔ ∀ t ∈ ts, t = 0 := by
  induction ts with
  | nil => simp [orAll]
  | cons t ts ih =>
    simp only [orAll, or_eq_zero_iff, List.mem_cons, ih]
    constructor
    · rintro ⟨h1, h2⟩ u hu
      rcases hu with rfl | hu
      · exact h1
      · exact h2 u hu
    · intro h
      exact ⟨h t (Or.inl rfl), fun u hu => h u (Or.inr hu)⟩

lemma orAll_ne_zero (ts : List Nat) (t : Nat) (ht : t ∈ ts) (hne : t ≠ 0) :
    orAll ts ≠ 0 := by
  intro h
  exact hne ((orAll_eq_zero_iff ts).mp h t ht)

lemma execute_cycle_eq (s : Interpreter) (h : s.program_counter + 1 < 4096) :
    execute_cycle s = execDecoded s (opcodeAt s) := by
  have h0 : s.program_counter < 4096 := Nat.lt_of_succ_lt h
  unfold execute_cycle memRead
  rw [if_pos h0, if_pos h]
  rfl

/-! ### The draw loop realises the part sequence -/

lemma memRead_lt (s : Interpreter) (a : Nat) (h : a < 4096) :
    memRead s a = .ok (s.memory a) := by
  simp [memRead, h]

lemma memRead_ge (s : Interpreter) (a : Nat) (h : ¬ a < 4096) :
    memRead s a = .error (.memOutOfBounds a) := by
  simp [memRead, h]

lemma partList_mem_off (i vx vy k : Nat) (mem : Nat → Nat) (p : Nat × Nat)
    (hp : p ∈ partList i vx vy k mem) :
    p.1 = baseOff vx vy k ∨ p.1 = baseOff vx vy k + 1 := by
  simp only [partList, List.mem_cons] at hp
  rcases hp with rfl | hp
  · left; rfl
  · split at hp
    · simp only [List.mem_singleton] at hp
      subst hp
      right; rfl
    · simp at hp

lemma drawByte_eq_parts (i vx vy k : Nat) (s : Interpreter)
    (h : byteOk i vx vy k s.memory = true) :
    drawByte i vx vy k s =
      .ok (List.foldl applyPart s (partList i vx vy k s.memory)) := by
  simp only [byteOk, Bool.and_eq_true, decide_eq_true_eq, List.all_eq_true] at h
  obtain ⟨hread, hparts⟩ := h
  have hoff : 0xF00 + ((vy + k) % 32 * 8 + vx % 64 / 8) < 4096 := by omega
  simp only [drawByte, memRead_lt _ _ hread, memRead_lt _ _ hoff]
  by_cases hr : 0 < vx % 64 % 8
  · by_cases hsb : 0 < s.memory (i + k) <<< (8 - vx % 64 % 8) % 256
    · have hoff2 : 0xF00 + ((vy + k) % 32 * 8 + vx % 64 / 8) + 1 < 4096 := by
        have := hparts (0xF00 + ((vy + k) % 32 * 8 + vx % 64 / 8) + 1,
          s.memory (i + k) <<< (8 - vx % 64 % 8) % 256) (by simp [partList, hr, hsb])
        exact this
      simp only [if_pos hr, if_pos hsb, memRead_lt _ _ hoff2, partList,
        if_pos (And.intro hr hsb), List.foldl_cons, List.foldl_nil]
      rfl
    · simp only [if_pos hr, if_neg hsb, partList,
        if_neg (fun hc : _ ∧ _ => hsb hc.2), List.foldl_cons, List.foldl_nil]
      rfl
  · simp only [if_neg hr, partList,
      if_neg (fun hc : _ ∧ _ => hr hc.1), List.foldl_cons, List.foldl_nil]
    rfl

lemma drawByte_ok_byteOk (i vx vy k : Nat) (s t : Interpreter)
    (h : drawByte i vx vy k s = .ok t) : byteOk i vx vy k s.memory = true := by
  by_cases hread : i + k < 4096
  · have hoff : 0xF00 + ((vy + k) % 32 * 8 + vx % 64 / 8) < 4096 := by omega
    simp only [drawByte, memRead_lt _ _ hread, memRead_lt _ _ hoff] at h
    by_cases hr : 0 < vx % 64 % 8
    · by_cases hsb : 0 < s.memory (i + k) <<< (8 - vx % 64 % 8) % 256
      · by_cases hoff2 : 0xF00 + ((vy + k) % 32 * 8 + vx % 64 / 8) + 1 < 4096
        · simp only [byteOk, partList, if_pos (And.intro hr hsb), Bool.and_eq_true,
            decide_eq_true_eq, List.all_eq_true]
          refine ⟨hread, ?_⟩
          intro p hp
          simp only [List.mem_cons, List.not_mem_nil, or_false] at hp
          rcases hp with rfl | rfl
          · simpa using hoff
          · simpa using hoff2
        · rw [if_pos hr, if_pos hsb, memRead_ge _ _ hoff2] at h
          exact absurd h (by simp)
      · simp only [byteOk, partList, if_neg (fun hc : _ ∧ _ => hsb hc.2), Bool.and_eq_true,
          decide_eq_true_eq, List.all_eq_true]
        refine ⟨hread, ?_⟩
        intro p hp
        simp only [List.mem_cons, List.not_mem_nil, or_false] at hp
        subst hp
        simpa using hoff
    · simp only [byteOk, partList, if_neg (fun hc : _ ∧ _ => hr hc.1), Bool.and_eq_true,
        decide_eq_true_eq, List.all_eq_true]
      refine ⟨hread, ?_⟩
      intro p hp
      simp only [List.mem_cons, List.not_mem_nil, or_false] at hp
      subst hp
      simpa using hoff
  · simp only [drawByte, memRead_ge _ _ hread] at h
    exact Except.noConfusion h

lemma drawLoop_eq_parts (i vx vy : Nat) :
    ∀ (cnt k : Nat) (s : Interpreter), loopOk i vx vy k cnt s.memory = true →
      drawLoop i vx vy k cnt s =
        .ok (List.foldl applyPart s (partsFrom i vx vy k cnt s.memory)) := by
  intro cnt
  induction cnt with
  | zero => intro k s _; rfl
  | succ cnt ih =>
    intro k s h
    simp only [loopOk, Bool.and_eq_true] at h
    obtain ⟨hb, hl⟩ := h
    have hmem : (List.foldl applyPart s (partList i vx vy k s.memory)).memory
        = (partList i vx vy k s.memory).foldl applyPartMem s.memory :=
      foldl_applyPart_memory _ _
    simp only [drawLoop, drawByte_eq_parts _ _ _ _ _ hb]
    rw [ih (k+1) _ (by rw [hmem]; exact hl), hmem]
    simp only [partsFrom, List.foldl_append]

lemma drawLoop_ok_loopOk (i vx vy : Nat) :
    ∀ (cnt k : Nat) (s t : Interpreter), drawLoop i vx vy k cnt s = .ok t →
      loopOk i vx vy k cnt s.memory = true := by
  intro cnt
  induction cnt with
  | zero => intro k s t _; rfl
  | succ cnt ih =>
    intro k s t h
    simp only [drawLoop] at h
    cases hd : drawByte i vx vy k s with
    | error e => rw [hd] at h; exact Except.noConfusion h
    | ok u =>
      rw [hd] at h
      have hb := drawByte_ok_byteOk _ _ _ _ _ _ hd
      have hu : u = List.foldl applyPart s (partList i vx vy k s.memory) := by
        rw [drawByte_eq_parts _ _ _ _ _ hb] at hd
        exact (Except.ok.injEq _ _ ▸ hd.symm :)
      simp only [loopOk, Bool.and_eq_true]
      refine ⟨hb, ?_⟩
      have := ih (k+1) u t h
      rw [hu, foldl_applyPart_memory] at this
      exact this

/-! ### Reduction of the dispatch, one recognized arm at a time -/

lemma execDecoded_arm0 (s : Interpreter) (op : Nat)
    (h0 : (op &&& 0xF000) >>> 12 = 0x0) (h2 : (op &&& 0x0F00) >>> 8 = 0x0)
    (h1 : (op &&& 0x00F0) >>> 4 = 0xE) (hn : op &&& 0x000F = 0x0) :
    execDecoded s op = .ok (step_to_next_instruction
      { s with memory := fun a => if 0xF00 ≤ a ∧ a < 0xF00 + 256 then 0x00 else s.memory a }) := by
  simp [execDecoded, h0, h2, h1, hn]

lemma execDecoded_arm1 (s : Interpreter) (op : Nat)
    (h : (op &&& 0xF000) >>> 12 = 0x1) :
    execDecoded s op = .ok { s with program_counter := op &&& 0x0FFF } := by
  simp [execDecoded, h]

lemma execDecoded_arm3 (s : Interpreter) (op : Nat)
    (h : (op &&& 0xF000) >>> 12 = 0x3) :
    execDecoded s op =
      if s.registers ((op &&& 0x0F00) >>> 8) = op &&& 0x00FF then
        .ok { s with program_counter := s.program_counter + 4 }
      else .ok (step_to_next_instruction s) := by
  simp [execDecoded, h]

lemma execDecoded_arm4 (s : Interpreter) (op : Nat)
    (h : (op &&& 0xF000) >>> 12 = 0x4) :
    execDecoded s op =
      if s.registers ((op &&& 0x0F00) >>> 8) ≠ op &&& 0x00FF then
        .ok { s with program_counter := s.program_counter + 4 }
      else .ok (step_to_next_instruction s) := by
  simp only [execDecoded, h]
  norm_num

lemma execDecoded_arm5 (s : Interpreter) (op : Nat)
    (h : (op &&& 0xF000) >>> 12 = 0x5) :
    execDecoded s op =
      if s.registers ((op &&& 0x0F00) >>> 8) = s.registers ((op &&& 0x00F0) >>> 4) then
        .ok { s with program_counter := s.program_counter + 4 }
      else .ok (step_to_next_instruction s) := by
  simp [execDecoded, h]

lemma execDecoded_arm6 (s : Interpreter) (op : Nat)
    (h : (op &&& 0xF000) >>> 12 = 0x6) :
    execDecoded s op =
      .ok (step_to_next_instruction (setReg s ((op &&& 0x0F00) >>> 8) (op &&& 0x00FF))) := by
  simp [execDecoded, h]

lemma execDecoded_arm7 (s : Interpreter) (op : Nat)
    (h : (op &&& 0xF000) >>> 12 = 0x7) :
    execDecoded s op =
      if 255 < s.registers ((op &&& 0x0F00) >>> 8) + (op &&& 0x00FF) then
        .error (.addOverflow ((op &&& 0x0F00) >>> 8)
          (s.registers ((op &&& 0x0F00) >>> 8) + (op &&& 0x00FF)))
      else .ok (step_to_next_instruction (setReg s ((op &&& 0x0F00) >>> 8)
        (s.registers ((op &&& 0x0F00) >>> 8) + (op &&& 0x00FF)))) := by
  simp [execDecoded, h]

lemma execDecoded_arm8 (s : Interpreter) (op : Nat)
    (h : (op &&& 0xF000) >>> 12 = 0x8) :
    execDecoded s op =
      if op &&& 0x000F = 0 then
        .ok (step_to_next_instruction
          (setReg s ((op &&& 0x0F00) >>> 8) (s.registers ((op &&& 0x00F0) >>> 4))))
      else if op &&& 0x000F = 1 then
        .ok (step_to_next_instruction (setReg s ((op &&& 0x0F00) >>> 8)
          (s.registers ((op &&& 0x0F00) >>> 8) ||| s.registers ((op &&& 0x00F0) >>> 4))))
      else if op &&& 0x000F = 2 then
        .ok (step_to_next_instruction (setReg s ((op &&& 0x0F00) >>> 8)
          (s.registers ((op &&& 0x0F00) >>> 8) &&& s.registers ((op &&& 0x00F0) >>> 4))))
      else if op &&& 0x000F = 3 then
        .ok (step_to_next_instruction (setReg s ((op &&& 0x0F00) >>> 8)
          (s.registers ((op &&& 0x0F00) >>> 8) ^^^ s.registers ((op &&& 0x00F0) >>> 4))))
      else .error (.unsupportedAluOp (op &&& 0x000F)) := by
  simp [execDecoded, h]

lemma execDecoded_armA (s : Interpreter) (op : Nat)
    (h : (op &&& 0xF000) >>> 12 = 0xA) :
    execDecoded s op =
      .ok (step_to_next_instruction { s with index_register := op &&& 0x0FFF }) := by
  simp [execDecoded, h]

lemma execDecoded_armD (s : Interpreter) (op : Nat)
    (h : (op &&& 0xF000) >>> 12 = 0xD) :
    execDecoded s op =
      match drawLoop s.index_register (s.registers ((op &&& 0x0F00) >>> 8))
          (s.registers ((op &&& 0x00F0) >>> 4)) 0 (op &&& 0x000F) (setReg s 0xF 0) with
      | .error e => .error e
      | .ok t => .ok (step_to_next_instruction t) := by
  simp [execDecoded, h]

lemma execDecoded_unrecognized (s : Interpreter) (op : Nat)
    (h : recognizedOp op = false) :
    execDecoded s op =
      if (op &&& 0xF000) >>> 12 = 0x8 then .error (.unsupportedAluOp (op &&& 0x000F))
      else .error (.unsupportedOpcode op) := by
  simp only [recognizedOp, Bool.or_eq_false_iff, Bool.and_eq_false_iff,
    decide_eq_false_iff_not] at h
  obtain ⟨⟨⟨⟨⟨⟨⟨⟨⟨hA, hB⟩, hC⟩, hD4⟩, hE⟩, hF⟩, hG⟩, hH⟩, hI⟩, hJ⟩ := h
  have c0 : ¬((op &&& 0xF000) >>> 12 = 0x0 ∧ (op &&& 0x0F00) >>> 8 = 0x0 ∧
      (op &&& 0x00F0) >>> 4 = 0xE ∧ op &&& 0x000F = 0x0) := by
    intro hc
    rcases hA with ((h1 | h2) | h3) | h4
    · exact h1 hc.1
    · exact h2 hc.2.1
    · exact h3 hc.2.2.1
    · exact h4 hc.2.2.2
  by_cases h8 : (op &&& 0xF000) >>> 12 = 0x8
  · have hn0 : ¬ op &&& 0x000F ≤ 3 := by
      rcases hH with h | h
      · exact absurd h8 h
      · exact h
    simp only [execDecoded, if_neg c0, if_neg hB, if_neg hC, if_neg hD4, if_neg hE,
      if_neg hF, if_neg hG, if_pos h8,
      if_neg (by omega : ¬ op &&& 0x000F = 0), if_neg (by omega : ¬ op &&& 0x000F = 1),
      if_neg (by omega : ¬ op &&& 0x000F = 2), if_neg (by omega : ¬ op &&& 0x000F = 3)]
  · simp only [execDecoded, if_neg c0, if_neg hB, if_neg hC, if_neg hD4, if_neg hE,
      if_neg hF, if_neg hG, if_neg h8, if_neg hI, if_neg hJ]

/-! ### Executing a `Dxyn` cycle -/

lemma exec_dxyn (s : Interpreter) (op : Nat)
    (hpc : s.program_counter + 1 < 4096) (hop : opcodeAt s = op)
    (hD : (op &&& 0xF000) >>> 12 = 0xD)
    (hin : loopOk s.index_register (s.registers ((op &&& 0x0F00) >>> 8))
      (s.registers ((op &&& 0x00F0) >>> 4)) 0 (op &&& 0x000F) s.memory = true) :
    execute_cycle s = .ok (step_to_next_instruction (List.foldl applyPart
      (setReg s 0xF 0)
      (partsFrom s.index_register (s.registers ((op &&& 0x0F00) >>> 8))
        (s.registers ((op &&& 0x00F0) >>> 4)) 0 (op &&& 0x000F) s.memory))) := by
  rw [execute_cycle_eq s hpc, hop, execDecoded_armD s op hD,
    drawLoop_eq_parts _ _ _ _ _ (setReg s 0xF 0) hin]
  rfl

lemma exec_dxyn_ok_loopOk (s s' : Interpreter) (op : Nat)
    (hpc : s.program_counter + 1 < 4096) (hop : opcodeAt s = op)
    (hD : (op &&& 0xF000) >>> 12 = 0xD)
    (hex : execute_cycle s = .ok s') :
    loopOk s.index_register (s.registers ((op &&& 0x0F00) >>> 8))
      (s.registers ((op &&& 0x00F0) >>> 4)) 0 (op &&& 0x000F) s.memory = true := by
  rw [execute_cycle_eq s hpc, hop, execDecoded_armD s op hD] at hex
  cases hdl : drawLoop s.index_register (s.registers ((op &&& 0x0F00) >>> 8))
      (s.registers ((op &&& 0x00F0) >>> 4)) 0 (op &&& 0x000F) (setReg s 0xF 0) with
  | error e => rw [hdl] at hex; exact Except.noConfusion hex
  | ok t => exact drawLoop_ok_loopOk _ _ _ _ _ (setReg s 0xF 0) t hdl

lemma loopOk_bounds (i vx vy : Nat) :
    ∀ (cnt k : Nat) (mem : Nat → Nat), loopOk i vx vy k cnt mem = true →
      ∀ j, j < cnt → i + (k + j) < 4096 := by
  intro cnt
  induction cnt with
  | zero => intro k mem _ j hj; omega
  | succ cnt ih =>
    intro k mem h j hj
    simp only [loopOk, Bool.and_eq_true] at h
    obtain ⟨hb, hl⟩ := h
    simp only [byteOk, Bool.and_eq_true, decide_eq_true_eq] at hb
    rcases Nat.eq_zero_or_pos j with rfl | hjp
    · simpa using hb.1
    · have := ih (k+1) _ hl (j-1) (by omega)
      omega

/-! ### Parts lists: congruence, distinct offsets, XOR accumulation -/

lemma collTerms_congr : ∀ (ps : List (Nat × Nat)) (mem1 mem2 : Nat → Nat),
    (∀ p ∈ ps, mem1 p.1 = mem2 p.1) → collTerms mem1 ps = collTerms mem2 ps := by
  intro ps
  induction ps with
  | nil => intro mem1 mem2 _; rfl
  | cons p ps ih =>
    intro mem1 mem2 h
    simp only [collTerms, h p (List.mem_cons_self p ps)]
    congr 1
    apply ih
    intro q hq
    simp only [applyPartMem]
    by_cases hqp : q.1 = p.1
    · simp [hqp, h p (List.mem_cons_self p ps)]
    · simp [hqp, h q (List.mem_cons_of_mem p hq)]

lemma collTerms_of_pairwise : ∀ (ps : List (Nat × Nat)) (mem : Nat → Nat),
    List.Pairwise (fun p q => p.1 ≠ q.1) ps →
    collTerms mem ps = ps.map (fun p => p.2 &&& mem p.1) := by
  intro ps
  induction ps with
  | nil => intro mem _; rfl
  | cons p ps ih =>
    intro mem h
    rw [List.pairwise_cons] at h
    obtain ⟨hhd, htl⟩ := h
    simp only [collTerms, List.map_cons]
    congr 1
    rw [collTerms_congr ps (applyPartMem mem p) mem ?_, ih mem htl]
    intro q hq
    simp only [applyPartMem]
    rw [if_neg (fun hc : q.1 = p.1 => hhd q hq hc.symm)]

lemma foldl_applyPartMem_xorAt : ∀ (ps : List (Nat × Nat)) (mem : Nat → Nat) (a : Nat),
    List.foldl applyPartMem mem ps a = mem a ^^^ xorAt ps a := by
  intro ps
  induction ps with
  | nil => intro mem a; simp [xorAt]
  | cons p ps ih =>
    intro mem a
    simp only [List.foldl_cons, xorAt, ih]
    by_cases hap : p.1 = a
    · subst hap
      simp [applyPartMem, Nat.xor_assoc]
    · simp only [applyPartMem, if_pos rfl, if_neg (fun hc : a = p.1 => hap hc.symm),
        if_neg hap, Nat.zero_xor]

lemma xorAt_eq_zero : ∀ (ps : List (Nat × Nat)) (a : Nat),
    (∀ p ∈ ps, p.1 ≠ a) → xorAt ps a = 0 := by
  intro ps
  induction ps with
  | nil => intro a _; rfl
  | cons p ps ih =>
    intro a h
    simp only [xorAt, if_neg (h p (List.mem_cons_self p ps)),
      ih a (fun q hq => h q (List.mem_cons_of_mem p hq)), Nat.zero_xor]

lemma xorAt_of_pairwise : ∀ (ps : List (Nat × Nat)) (p : Nat × Nat),
    List.Pairwise (fun p q => p.1 ≠ q.1) ps → p ∈ ps → xorAt ps p.1 = p.2 := by
  intro ps
  induction ps with
  | nil => intro p _ hp; exact absurd hp (List.not_mem_nil p)
  | cons q ps ih =>
    intro p h hp
    rw [List.pairwise_cons] at h
    obtain ⟨hhd, htl⟩ := h
    rcases List.mem_cons.mp hp with rfl | hp
    · have hz := xorAt_eq_zero ps p.1 (fun r hr hc => hhd r hr hc.symm)
      simp [xorAt, hz]
    · simp only [xorAt, if_neg (hhd p hp), ih p htl hp, Nat.zero_xor]

lemma foldl_applyPartMem_low (ps : List (Nat × Nat)) (mem : Nat → Nat) (a : Nat)
    (hlow : ∀ p ∈ ps, 0xF00 ≤ p.1) (ha : a < 0xF00) :
    List.foldl applyPartMem mem ps a = mem a := by
  rw [foldl_applyPartMem_xorAt, xorAt_eq_zero ps a (fun p hp => by
    have := hlow p hp; omega), Nat.xor_zero]

lemma partList_congr (i vx vy k : Nat) (mem1 mem2 : Nat → Nat)
    (h : mem1 (i + k) = mem2 (i + k)) :
    partList i vx vy k mem1 = partList i vx vy k mem2 := by
  simp only [partList, h]

lemma partList_off_low (i vx vy k : Nat) (mem : Nat → Nat) (p : Nat × Nat)
    (hp : p ∈ partList i vx vy k mem) : 0xF00 ≤ p.1 := by
  rcases partList_mem_off i vx vy k mem p hp with h | h
  · rw [h]; simp [baseOff]
  · rw [h]; simp only [baseOff]; omega

lemma partsPre_congr (i vx vy : Nat) : ∀ (cnt k : Nat) (mem1 mem2 : Nat → Nat),
    (∀ j, k ≤ j → j < k + cnt → mem1 (i + j) = mem2 (i + j)) →
    partsPre i vx vy k cnt mem1 = partsPre i vx vy k cnt mem2 := by
  intro cnt
  induction cnt with
  | zero => intro k mem1 mem2 _; rfl
  | succ cnt ih =>
    intro k mem1 mem2 h
    simp only [partsPre]
    rw [partList_congr i vx vy k mem1 mem2 (h k (Nat.le_refl k) (by omega)),
      ih (k+1) mem1 mem2 (fun j hj1 hj2 => h j (by omega) (by omega))]

lemma partsFrom_eq_partsPre (i vx vy : Nat) : ∀ (cnt k : Nat) (mem : Nat → Nat),
    (∀ j, k ≤ j → j < k + cnt → i + j < 0xF00) →
    partsFrom i vx vy k cnt mem = partsPre i vx vy k cnt mem := by
  intro cnt
  induction cnt with
  | zero => intro k mem _; rfl
  | succ cnt ih =>
    intro k mem h
    simp only [partsFrom, partsPre]
    congr 1
    rw [ih (k+1) _ (fun j hj1 hj2 => h j (by omega) (by omega))]
    apply partsPre_congr
    intro j hj1 hj2
    exact foldl_applyPartMem_low _ _ _
      (fun p hp => partList_off_low i vx vy k mem p hp)
      (h j (by omega) (by omega))

lemma partsPre_mem_off (i vx vy : Nat) : ∀ (cnt k : Nat) (mem : Nat → Nat)
    (p : Nat × Nat), p ∈ partsPre i vx vy k cnt mem →
    ∃ j, k ≤ j ∧ j < k + cnt ∧ (p.1 = baseOff vx vy j ∨ p.1 = baseOff vx vy j + 1) := by
  intro cnt
  induction cnt with
  | zero => intro k mem p hp; exact absurd hp (List.not_mem_nil p)
  | succ cnt ih =>
    intro k mem p hp
    simp only [partsPre, List.mem_append] at hp
    rcases hp with hp | hp
    · exact ⟨k, Nat.le_refl k, by omega, partList_mem_off i vx vy k mem p hp⟩
    · obtain ⟨j, hj1, hj2, hj3⟩ := ih (k+1) mem p hp
      exact ⟨j, by omega, by omega, hj3⟩

lemma baseOff_ne (vx vy j k : Nat) (hrow : (vy + j) % 32 ≠ (vy + k) % 32) :
    baseOff vx vy j ≠ baseOff vx vy k ∧ baseOff vx vy j ≠ baseOff vx vy k + 1 ∧
    baseOff vx vy j + 1 ≠ baseOff vx vy k ∧ baseOff vx vy j + 1 ≠ baseOff vx vy k + 1 := by
  simp only [baseOff]
  omega

lemma partList_pairwise (i vx vy k : Nat) (mem : Nat → Nat) :
    List.Pairwise (fun p q : Nat × Nat => p.1 ≠ q.1) (partList i vx vy k mem) := by
  simp only [partList]
  split
  · simp
  · simp

lemma partsPre_pairwise (i vx vy : Nat) : ∀ (cnt k : Nat) (mem : Nat → Nat),
    cnt ≤ 32 →
    List.Pairwise (fun p q : Nat × Nat => p.1 ≠ q.1) (partsPre i vx vy k cnt mem) := by
  intro cnt
  induction cnt with
  | zero => intro k mem _; exact List.Pairwise.nil
  | succ cnt ih =>
    intro k mem h
    simp only [partsPre]
    rw [List.pairwise_append]
    refine ⟨partList_pairwise i vx vy k mem, ih (k+1) mem (by omega), ?_⟩
    intro p hp q hq
    obtain ⟨j, hj1, hj2, hj3⟩ := partsPre_mem_off i vx vy cnt (k+1) mem q hq
    have hrow : (vy + k) % 32 ≠ (vy + j) % 32 := by omega
    have hb := baseOff_ne vx vy k j hrow
    rcases partList_mem_off i vx vy k mem p hp with hpe | hpe <;>
      rcases hj3 with hqe | hqe <;> rw [hpe, hqe] <;> tauto

lemma and_xor_ne_zero (p m : Nat) (h : p &&& m ≠ p) : p &&& (m ^^^ p) ≠ 0 := by
  intro h0
  apply h
  apply Nat.eq_of_testBit_eq
  intro t
  have hb := congrArg (fun v => v.testBit t) h0
  simp only [Nat.testBit_and, Nat.testBit_xor, Nat.zero_testBit] at hb
  cases hp : p.testBit t <;> cases hm : m.testBit t <;>
    simp_all [Nat.testBit_and]

/-! ### Fetch bounds -/

lemma execute_cycle_ok_fetch (s s' : Interpreter) (h : execute_cycle s = .ok s') :
    s.program_counter + 1 < 4096 := by
  by_contra hpc
  by_cases h0 : s.program_counter < 4096
  · simp only [execute_cycle, memRead_lt _ _ h0, memRead_ge _ _ hpc] at h
    exact Except.noConfusion h
  · simp only [execute_cycle, memRead_ge _ _ h0] at h
    exact Except.noConfusion h

lemma exec_fetch_fault_high (s : Interpreter) (h0 : s.program_counter < 4096)
    (h : ¬ s.program_counter + 1 < 4096) :
    execute_cycle s = .error (.memOutOfBounds (s.program_counter + 1)) := by
  simp only [execute_cycle, memRead_lt _ _ h0, memRead_ge _ _ h]

/-! ### The claims -/

/-- C2: for `rom` of length at most 3584 = 4096 - 0x200, `load_program`
succeeds, the bytes are readable verbatim from offset `0x200`, the rest
of memory and the registers, index register and program counter are
unaltered; for longer `rom` it fails with `CapacityExceeded` reporting
the requested length and the available space 3584, leaving the state
unmodified. -/
theorem C2_load_program (s : Interpreter) (rom : List Nat) :
    (rom.length ≤ 3584 →
      (load_program s rom).2 = none ∧
      (∀ j, j < rom.length → (load_program s rom).1.memory (0x200 + j) = rom.getD j 0) ∧
      (∀ a, a < 0x200 → (load_program s rom).1.memory a = s.memory a) ∧
      (∀ a, 0x200 + rom.length ≤ a → (load_program s rom).1.memory a = s.memory a) ∧
      (load_program s rom).1.registers = s.registers ∧
      (load_program s rom).1.index_register = s.index_register ∧
      (load_program s rom).1.program_counter = s.program_counter) ∧
    (3584 < rom.length →
      load_program s rom = (s, some (.capacityExceeded rom.length 3584))) := by
  have hload : rom.length ≤ 3584 →
      load_program s rom = ({ s with memory := loadedMem s rom }, none) := by
    intro h
    simp only [load_program]
    rw [if_neg (by omega : ¬ rom.length > 4096 - 0x200)]
    rfl
  constructor
  · intro h
    rw [hload h]
    refine ⟨rfl, ?_, ?_, ?_, rfl, rfl, rfl⟩
    · intro j hj
      show loadedMem s rom (0x200 + j) = rom.getD j 0
      unfold loadedMem
      rw [if_pos (by omega : 0x200 ≤ 0x200 + j ∧ 0x200 + j < 0x200 + rom.length)]
      have hidx : 0x200 + j - 0x200 = j := by omega
      rw [hidx]
    · intro a ha
      show loadedMem s rom a = s.memory a
      unfold loadedMem
      rw [if_neg (by omega : ¬ (0x200 ≤ a ∧ a < 0x200 + rom.length))]
    · intro a ha
      show loadedMem s rom a = s.memory a
      unfold loadedMem
      rw [if_neg (by omega : ¬ (0x200 ≤ a ∧ a < 0x200 + rom.length))]
  · intro h
    simp only [load_program]
    rw [if_pos (by omega : rom.length > 4096 - 0x200)]

theorem C2_witness :
    ((load_program Interpreter.new [0xAB]).1.memory (0x200 + 0) = [0xAB].getD 0 0) ∧
    load_program Interpreter.new c2romBig =
      (Interpreter.new, some (.capacityExceeded c2romBig.length 3584)) := by
  refine ⟨((C2_load_program Interpreter.new [0xAB]).1 (by decide)).2.1 0 (by decide), ?_⟩
  exact (C2_load_program Interpreter.new c2romBig).2
    (by rw [c2romBig, List.length_replicate]; omega)

/-- C3 counterexample: the opcode `5011` is outside the claim's
recognized set (which lists only `5xy0`), yet `execute_cycle` completes
without a fault and advances the program counter past it. -/
theorem C3_counterexample :
    opcodeAt c3cex = 0x5011 ∧
    execute_cycle c3cex = .ok (stepD c3cex) ∧
    (stepD c3cex).program_counter = c3cex.program_counter + 4 := by
  refine ⟨by decide, rfl, by decide⟩

/-- C3 (amended): for every opcode outside the set the dispatcher
recognizes (which accepts every `5xyn`, not only `5xy0`), `execute_cycle`
faults and never completes; the diagnostic carries the full 16-bit
opcode, except for `8xyk` with `k ≥ 4`, whose panic reports only the low
nibble `k`. -/
theorem C3_unrecognized_traps (s : Interpreter) (op : Nat)
    (hpc : s.program_counter + 1 < 4096) (hop : opcodeAt s = op)
    (hnr : recognizedOp op = false) :
    execute_cycle s = .error (if (op &&& 0xF000) >>> 12 = 0x8
      then .unsupportedAluOp (op &&& 0x000F) else .unsupportedOpcode op) := by
  rw [execute_cycle_eq s hpc, hop, execDecoded_unrecognized s op hnr]
  by_cases h8 : (op &&& 0xF000) >>> 12 = 0x8 <;> simp [h8]

theorem C3_witness :
    execute_cycle c3s = .error (if (0xE000 &&& 0xF000) >>> 12 = 0x8
      then .unsupportedAluOp (0xE000 &&& 0x000F) else .unsupportedOpcode 0xE000) :=
  C3_unrecognized_traps c3s 0xE000 (by decide) (by decide) (by decide)

/-- C6 counterexample: executing `8003` (XOR with `x = y = 0`) on a state
with `V0 = 1` zeroes register 0, so register `y` is not left unchanged
when `x = y`. -/
theorem C6_counterexample :
    opcodeAt c6cex = 0x8003 ∧ c6cex.registers 0 = 1 ∧
    execute_cycle c6cex = .ok (stepD c6cex) ∧ (stepD c6cex).registers 0 = 0 := by
  refine ⟨by decide, by decide, rfl, by decide⟩

/-- C6 (amended): executing `8xy1`/`8xy2`/`8xy3` sets register `x` to
the bitwise OR/AND/XOR of the original `Vx` and `Vy`, leaves every
register other than `x` (in particular `Vy` whenever `y ≠ x`) unchanged,
advances the program counter by 2, and leaves memory and the index
register unaltered; when `x = y` the shared register holds the result of
the operation applied to `Vx` with itself, which for XOR is 0. -/
theorem C6_logical_ops (s : Interpreter) (op k : Nat)
    (hpc : s.program_counter + 1 < 4096) (hop : opcodeAt s = op)
    (h8 : (op &&& 0xF000) >>> 12 = 0x8) (hk : op &&& 0x000F = k)
    (hk13 : k = 1 ∨ k = 2 ∨ k = 3) :
    ∃ s', execute_cycle s = .ok s' ∧
      s'.registers ((op &&& 0x0F00) >>> 8) =
        aluOp k (s.registers ((op &&& 0x0F00) >>> 8))
          (s.registers ((op &&& 0x00F0) >>> 4)) ∧
      (∀ j, j ≠ (op &&& 0x0F00) >>> 8 → s'.registers j = s.registers j) ∧
      s'.memory = s.memory ∧ s'.index_register = s.index_register ∧
      s'.program_counter = s.program_counter + 2 := by
  rw [execute_cycle_eq s hpc, hop, execDecoded_arm8 s op h8]
  rcases hk13 with rfl | rfl | rfl
  · rw [if_neg (by omega), if_pos hk]
    exact ⟨_, rfl, by simp [setReg, step_to_next_instruction, aluOp],
      fun j hj => by simp [setReg, step_to_next_instruction, hj], rfl, rfl, rfl⟩
  · rw [if_neg (by omega), if_neg (by omega), if_pos hk]
    exact ⟨_, rfl, by simp [setReg, step_to_next_instruction, aluOp],
      fun j hj => by simp [setReg, step_to_next_instruction, hj], rfl, rfl, rfl⟩
  · rw [if_neg (by omega), if_neg (by omega), if_neg (by omega), if_pos hk]
    exact ⟨_, rfl, by simp [setReg, step_to_next_instruction, aluOp],
      fun j hj => by simp [setReg, step_to_next_instruction, hj], rfl, rfl, rfl⟩

theorem C6_witness :
    ∃ s', execute_cycle c6s = .ok s' ∧
      s'.registers ((0x8013 &&& 0x0F00) >>> 8) =
        aluOp 3 (c6s.registers ((0x8013 &&& 0x0F00) >>> 8))
          (c6s.registers ((0x8013 &&& 0x00F0) >>> 4)) ∧
      (∀ j, j ≠ (0x8013 &&& 0x0F00) >>> 8 → s'.registers j = c6s.registers j) ∧
      s'.memory = c6s.memory ∧ s'.index_register = c6s.index_register ∧
      s'.program_counter = c6s.program_counter + 2 :=
  C6_logical_ops c6s 0x8013 3 (by decide) (by decide) (by decide) (by decide)
    (by decide)

/-- C7: for `7xkk` with `Vx + kk ≤ 255`, `execute_cycle` sets register
`x` to `Vx + kk`, advances the program counter by 2 and mutates nothing
else; for `Vx + kk > 255` the code exhibits failure, not wrap-around:
the plain (checked) `u8` addition overflows and the cycle faults. -/
theorem C7_add_immediate (s : Interpreter) (op : Nat)
    (hpc : s.program_counter + 1 < 4096) (hop : opcodeAt s = op)
    (h7 : (op &&& 0xF000) >>> 12 = 0x7) :
    (s.registers ((op &&& 0x0F00) >>> 8) + (op &&& 0x00FF) ≤ 255 →
      ∃ s', execute_cycle s = .ok s' ∧
        s'.registers ((op &&& 0x0F00) >>> 8) =
          s.registers ((op &&& 0x0F00) >>> 8) + (op &&& 0x00FF) ∧
        (∀ j, j ≠ (op &&& 0x0F00) >>> 8 → s'.registers j = s.registers j) ∧
        s'.memory = s.memory ∧ s'.index_register = s.index_register ∧
        s'.program_counter = s.program_counter + 2) ∧
    (255 < s.registers ((op &&& 0x0F00) >>> 8) + (op &&& 0x00FF) →
      execute_cycle s = .error (.addOverflow ((op &&& 0x0F00) >>> 8)
        (s.registers ((op &&& 0x0F00) >>> 8) + (op &&& 0x00FF)))) := by
  rw [execute_cycle_eq s hpc, hop, execDecoded_arm7 s op h7]
  constructor
  · intro h
    rw [if_neg (by omega)]
    exact ⟨_, rfl, by simp [setReg, step_to_next_instruction],
      fun j hj => by simp [setReg, step_to_next_instruction, hj], rfl, rfl, rfl⟩
  · intro h
    rw [if_pos h]

theorem C7_witness :
    (∃ s', execute_cycle c7s = .ok s' ∧
      s'.registers ((0x7012 &&& 0x0F00) >>> 8) =
        c7s.registers ((0x7012 &&& 0x0F00) >>> 8) + (0x7012 &&& 0x00FF) ∧
      (∀ j, j ≠ (0x7012 &&& 0x0F00) >>> 8 → s'.registers j = c7s.registers j) ∧
      s'.memory = c7s.memory ∧ s'.index_register = c7s.index_register ∧
      s'.program_counter = c7s.program_counter + 2) ∧
    execute_cycle c7o = .error (.addOverflow ((0x70FF &&& 0x0F00) >>> 8)
      (c7o.registers ((0x70FF &&& 0x0F00) >>> 8) + (0x70FF &&& 0x00FF))) :=
  ⟨(C7_add_immediate c7s 0x7012 (by decide) (by decide) (by decide)).1 (by decide),
   (C7_add_immediate c7o 0x70FF (by decide) (by decide) (by decide)).2 (by decide)⟩

/-- C8: `3xkk`, `4xkk` and `5xy0` advance the program counter by exactly
4 when `Vx = kk`, `Vx ≠ kk`, `Vx = Vy` respectively and by exactly 2
otherwise, and mutate no register, no memory byte and not the index
register (the resulting state differs from `s` only in the program
counter). -/
theorem C8_conditional_skips :
    (∀ (s : Interpreter) (op : Nat), s.program_counter + 1 < 4096 → opcodeAt s = op →
      (op &&& 0xF000) >>> 12 = 0x3 →
      execute_cycle s = .ok { s with program_counter := s.program_counter +
        (if s.registers ((op &&& 0x0F00) >>> 8) = op &&& 0x00FF then 4 else 2) }) ∧
    (∀ (s : Interpreter) (op : Nat), s.program_counter + 1 < 4096 → opcodeAt s = op →
      (op &&& 0xF000) >>> 12 = 0x4 →
      execute_cycle s = .ok { s with program_counter := s.program_counter +
        (if s.registers ((op &&& 0x0F00) >>> 8) ≠ op &&& 0x00FF then 4 else 2) }) ∧
    (∀ (s : Interpreter) (op : Nat), s.program_counter + 1 < 4096 → opcodeAt s = op →
      (op &&& 0xF000) >>> 12 = 0x5 → op &&& 0x000F = 0 →
      execute_cycle s = .ok { s with program_counter := s.program_counter +
        (if s.registers ((op &&& 0x0F00) >>> 8) = s.registers ((op &&& 0x00F0) >>> 4)
         then 4 else 2) }) := by
  refine ⟨?_, ?_, ?_⟩
  · intro s op hpc hop h3
    rw [execute_cycle_eq s hpc, hop, execDecoded_arm3 s op h3]
    by_cases hc : s.registers ((op &&& 0x0F00) >>> 8) = op &&& 0x00FF <;>
      simp [hc, step_to_next_instruction]
  · intro s op hpc hop h4
    rw [execute_cycle_eq s hpc, hop, execDecoded_arm4 s op h4]
    by_cases hc : s.registers ((op &&& 0x0F00) >>> 8) = op &&& 0x00FF <;>
      simp [hc, step_to_next_instruction]
  · intro s op hpc hop h5 _
    rw [execute_cycle_eq s hpc, hop, execDecoded_arm5 s op h5]
    by_cases hc : s.registers ((op &&& 0x0F00) >>> 8) =
        s.registers ((op &&& 0x00F0) >>> 4) <;>
      simp [hc, step_to_next_instruction]

theorem C8_witness :
    execute_cycle c8s = .ok { c8s with program_counter := c8s.program_counter +
      (if c8s.registers ((0x3007 &&& 0x0F00) >>> 8) = 0x3007 &&& 0x00FF
       then 4 else 2) } :=
  C8_conditional_skips.1 c8s 0x3007 (by decide) (by decide) (by decide)

/-- C10: the fetch indexes memory at `pc` and `pc + 1` and stays in
bounds exactly when `pc ≤ 4094`: from any state with `pc = 4095` the
cycle faults indexing memory at 4096; the state `c10s`, reached from
`new()` by loading opcode `1FFF` and executing it, has `pc = 4095`, and
its next cycle faults at index 4096; conversely for `pc ≤ 4094` both
fetch reads succeed. -/
theorem C10_fetch_bounds :
    (∀ s : Interpreter, s.program_counter = 4095 →
      execute_cycle s = .error (.memOutOfBounds 4096)) ∧
    (Reachable c10s ∧ c10s.program_counter = 4095 ∧
      execute_cycle c10s = .error (.memOutOfBounds 4096)) ∧
    (∀ s : Interpreter, s.program_counter ≤ 4094 →
      memRead s s.program_counter = .ok (s.memory s.program_counter) ∧
      memRead s (s.program_counter + 1) = .ok (s.memory (s.program_counter + 1))) := by
  refine ⟨?_, ⟨?_, by decide, rfl⟩, ?_⟩
  · intro s h
    have := exec_fetch_fault_high s (by omega) (by omega)
    rw [this, h]
  · refine Reachable.step (loadD Interpreter.new [0x1F, 0xFF]) c10s
      (Reachable.load Interpreter.new (loadD Interpreter.new [0x1F, 0xFF])
        [0x1F, 0xFF] Reachable.init rfl) rfl
  · intro s h
    exact ⟨memRead_lt _ _ (by omega), memRead_lt _ _ (by omega)⟩

theorem C10_witness :
    execute_cycle c10w = .error (.memOutOfBounds 4096) :=
  C10_fetch_bounds.1 c10w (by decide)

/-- C1: for every state in which all memory accesses of the draw are in
bounds (`loopOk`), executing the fetched `Dxyn` opcode applies exactly
the part sequence `partsFrom`: for the `i`-th sprite byte the high part
`byte >>> (column % 8)` is XORed into the framebuffer byte at
`0xF00 + row * 8 + column / 8` with `row = (Vy + i) % 32`,
`column = Vx % 64`, and, when `column % 8` and the truncated low part
`byte <<< (8 - column % 8)` are both non-zero, the low part is XORed
into the next framebuffer byte; register 15 is reset before any row and
ends as the OR of all collision terms — non-zero iff some applied part
ANDed with the framebuffer byte it met is non-zero — and the program
counter advances by 2, with the other registers and the index register
unaltered. -/
theorem C1_dxyn_draw (s : Interpreter) (op : Nat)
    (hpc : s.program_counter + 1 < 4096) (hop : opcodeAt s = op)
    (hD : (op &&& 0xF000) >>> 12 = 0xD)
    (hin : loopOk s.index_register (s.registers ((op &&& 0x0F00) >>> 8))
      (s.registers ((op &&& 0x00F0) >>> 4)) 0 (op &&& 0x000F) s.memory = true) :
    ∃ s', execute_cycle s = .ok s' ∧
      s'.memory = List.foldl applyPartMem s.memory
        (partsFrom s.index_register (s.registers ((op &&& 0x0F00) >>> 8))
          (s.registers ((op &&& 0x00F0) >>> 4)) 0 (op &&& 0x000F) s.memory) ∧
      s'.registers 0xF = collOr s.memory
        (partsFrom s.index_register (s.registers ((op &&& 0x0F00) >>> 8))
          (s.registers ((op &&& 0x00F0) >>> 4)) 0 (op &&& 0x000F) s.memory) ∧
      (s'.registers 0xF ≠ 0 ↔ ∃ t ∈ collTerms s.memory
        (partsFrom s.index_register (s.registers ((op &&& 0x0F00) >>> 8))
          (s.registers ((op &&& 0x00F0) >>> 4)) 0 (op &&& 0x000F) s.memory), t ≠ 0) ∧
      (∀ j, j ≠ 0xF → s'.registers j = s.registers j) ∧
      s'.index_register = s.index_register ∧
      s'.program_counter = s.program_counter + 2 := by
  refine ⟨_, exec_dxyn s op hpc hop hD hin, ?_, ?_, ?_, ?_, ?_, ?_⟩
  · show (List.foldl applyPart (setReg s 0xF 0) _).memory = _
    rw [foldl_applyPart_memory]
    rfl
  · show (List.foldl applyPart (setReg s 0xF 0) _).registers 0xF = _
    rw [foldl_applyPart_reg15]
    show 0 ||| _ = _
    rw [Nat.zero_or]
    rfl
  · show (List.foldl applyPart (setReg s 0xF 0) _).registers 0xF ≠ 0 ↔ _
    rw [foldl_applyPart_reg15]
    show 0 ||| _ ≠ 0 ↔ _
    rw [Nat.zero_or]
    show collOr s.memory _ ≠ 0 ↔ _
    unfold collOr
    rw [Ne, orAll_eq_zero_iff]
    push_neg
    rfl
  · intro j hj
    show (List.foldl applyPart (setReg s 0xF 0) _).registers j = _
    rw [foldl_applyPart_reg_ne _ _ _ hj]
    simp [setReg, hj]
  · show (List.foldl applyPart (setReg s 0xF 0) _).index_register = _
    rw [foldl_applyPart_idx]
    rfl
  · show (List.foldl applyPart (setReg s 0xF 0) _).program_counter + 2 = _
    rw [foldl_applyPart_pc]
    rfl

theorem C1_witness :
    ∃ s', execute_cycle c1s = .ok s' ∧
      s'.memory = List.foldl applyPartMem c1s.memory
        (partsFrom c1s.index_register (c1s.registers ((0xD015 &&& 0x0F00) >>> 8))
          (c1s.registers ((0xD015 &&& 0x00F0) >>> 4)) 0 (0xD015 &&& 0x000F) c1s.memory) ∧
      s'.registers 0xF = collOr c1s.memory
        (partsFrom c1s.index_register (c1s.registers ((0xD015 &&& 0x0F00) >>> 8))
          (c1s.registers ((0xD015 &&& 0x00F0) >>> 4)) 0 (0xD015 &&& 0x000F) c1s.memory) ∧
      (s'.registers 0xF ≠ 0 ↔ ∃ t ∈ collTerms c1s.memory
        (partsFrom c1s.index_register (c1s.registers ((0xD015 &&& 0x0F00) >>> 8))
          (c1s.registers ((0xD015 &&& 0x00F0) >>> 4)) 0 (0xD015 &&& 0x000F) c1s.memory),
        t ≠ 0) ∧
      (∀ j, j ≠ 0xF → s'.registers j = c1s.registers j) ∧
      s'.index_register = c1s.index_register ∧
      s'.program_counter = c1s.program_counter + 2 :=
  C1_dxyn_draw c1s 0xD015 (by decide) (by decide) (by decide) (by decide)

/-- C9: the draw can index memory out of bounds: the reachable state
`c9s` (set up by `c9rom`: column 63, row 31, a sprite byte with a
non-zero straddling low part) faults at memory index 4096 = 0xF00 + 256;
conversely, whenever a `Dxyn` cycle with `n ≥ 1` completes without a
fault, `index_register + n ≤ 4096` and every access of the draw was in
bounds (`loopOk`), i.e. no row lay on the last framebuffer byte while
producing a non-zero straddling part. -/
theorem C9_draw_bounds :
    (Reachable c9s ∧ opcodeAt c9s = 0xD011 ∧
      execute_cycle c9s = .error (.memOutOfBounds 4096)) ∧
    (∀ (s s' : Interpreter) (op : Nat), s.program_counter + 1 < 4096 →
      opcodeAt s = op → (op &&& 0xF000) >>> 12 = 0xD → 0 < op &&& 0x000F →
      execute_cycle s = .ok s' →
      s.index_register + (op &&& 0x000F) ≤ 4096 ∧
      loopOk s.index_register (s.registers ((op &&& 0x0F00) >>> 8))
        (s.registers ((op &&& 0x00F0) >>> 4)) 0 (op &&& 0x000F) s.memory = true) := by
  constructor
  · refine ⟨?_, by decide, rfl⟩
    refine Reachable.step _ c9s (Reachable.step _ _ (Reachable.step _ _
      (Reachable.load Interpreter.new _ c9rom Reachable.init rfl) rfl) rfl) rfl
  · intro s s' op hpc hop hD hn hex
    have hlo := exec_dxyn_ok_loopOk s s' op hpc hop hD hex
    refine ⟨?_, hlo⟩
    have := loopOk_bounds _ _ _ _ _ _ hlo ((op &&& 0x000F) - 1) (by omega)
    omega

theorem C9_witness :
    c1s.index_register + (0xD015 &&& 0x000F) ≤ 4096 ∧
    loopOk c1s.index_register (c1s.registers ((0xD015 &&& 0x0F00) >>> 8))
      (c1s.registers ((0xD015 &&& 0x00F0) >>> 4)) 0 (0xD015 &&& 0x000F)
      c1s.memory = true :=
  C9_draw_bounds.2 c1s (stepD c1s) 0xD015 (by decide) (by decide) (by decide)
    (by decide) rfl

/-- C5 counterexample: the state reached from `new()` by loading opcode
`1201` and executing one cycle is reachable and its program counter is
the odd address `0x201`: the jump rule imposes no alignment. -/
theorem C5_counterexample : Reachable c5cex ∧ c5cex.program_counter % 2 = 1 := by
  constructor
  · exact Reachable.step _ c5cex
      (Reachable.load Interpreter.new _ [0x12, 0x01] Reachable.init rfl) rfl
  · decide

/-- C5 (amended): the program counter starts even (0x200), is never
changed by `load_program`, and every completed `execute_cycle` advances
it by 2 or by 4 — preserving evenness — except a `1nnn` jump, which sets
it to `nnn` of either parity; so the counter stays even-aligned exactly
as long as every executed jump targets an even address. -/
theorem C5_pc_parity :
    Interpreter.new.program_counter % 2 = 0 ∧
    (∀ (s : Interpreter) (rom : List Nat),
      (load_program s rom).1.program_counter = s.program_counter) ∧
    (∀ s s' : Interpreter, execute_cycle s = .ok s' →
      s'.program_counter = s.program_counter + 2 ∨
      s'.program_counter = s.program_counter + 4 ∨
      ((opcodeAt s &&& 0xF000) >>> 12 = 0x1 ∧
        s'.program_counter = opcodeAt s &&& 0x0FFF)) := by
  refine ⟨by decide, ?_, ?_⟩
  · intro s rom
    simp only [load_program]
    split <;> rfl
  · intro s s' h
    have hpc := execute_cycle_ok_fetch s s' h
    rw [execute_cycle_eq s hpc] at h
    by_cases hr : recognizedOp (opcodeAt s) = true
    · simp only [recognizedOp, Bool.or_eq_true, Bool.and_eq_true,
        decide_eq_true_eq] at hr
      rcases hr with ((((((((⟨⟨⟨ha3, ha2⟩, ha1⟩, ha0⟩ | hB) | hC) | hD4) | hE)
        | hF) | hG) | ⟨h8, hle⟩) | hI) | hJ
      · rw [execDecoded_arm0 s (opcodeAt s) ha3 ha2 ha1 ha0] at h
        left; rw [← Except.ok.inj h]; rfl
      · rw [execDecoded_arm1 s (opcodeAt s) hB] at h
        right; right
        exact ⟨hB, by rw [← Except.ok.inj h]⟩
      · rw [execDecoded_arm3 s (opcodeAt s) hC] at h
        split at h
        · right; left; rw [← Except.ok.inj h]
        · left; rw [← Except.ok.inj h]; rfl
      · rw [execDecoded_arm4 s (opcodeAt s) hD4] at h
        split at h
        · right; left; rw [← Except.ok.inj h]
        · left; rw [← Except.ok.inj h]; rfl
      · rw [execDecoded_arm5 s (opcodeAt s) hE] at h
        split at h
        · right; left; rw [← Except.ok.inj h]
        · left; rw [← Except.ok.inj h]; rfl
      · rw [execDecoded_arm6 s (opcodeAt s) hF] at h
        left; rw [← Except.ok.inj h]; rfl
      · rw [execDecoded_arm7 s (opcodeAt s) hG] at h
        split at h
        · exact Except.noConfusion h
        · left; rw [← Except.ok.inj h]; rfl
      · rw [execDecoded_arm8 s (opcodeAt s) h8] at h
        split at h
        · left; rw [← Except.ok.inj h]; rfl
        · split at h
          · left; rw [← Except.ok.inj h]; rfl
          · split at h
            · left; rw [← Except.ok.inj h]; rfl
            · split at h
              · left; rw [← Except.ok.inj h]; rfl
              · exact Except.noConfusion h
      · rw [execDecoded_armA s (opcodeAt s) hI] at h
        left; rw [← Except.ok.inj h]; rfl
      · rw [execDecoded_armD s (opcodeAt s) hJ] at h
        cases hdl : drawLoop s.index_register
            (s.registers ((opcodeAt s &&& 0x0F00) >>> 8))
            (s.registers ((opcodeAt s &&& 0x00F0) >>> 4)) 0 (opcodeAt s &&& 0x000F)
            (setReg s 0xF 0) with
        | error e => rw [hdl] at h; exact Except.noConfusion h
        | ok t =>
          rw [hdl] at h
          left
          rw [← Except.ok.inj h]
          have hlo := drawLoop_ok_loopOk _ _ _ _ _ _ _ hdl
          rw [drawLoop_eq_parts _ _ _ _ _ _ hlo] at hdl
          rw [← Except.ok.inj hdl]
          show (List.foldl applyPart (setReg s 0xF 0) _).program_counter + 2 =
            s.program_counter + 2
          rw [foldl_applyPart_pc]
          rfl
    · rw [execDecoded_unrecognized s (opcodeAt s)
        (Bool.not_eq_true _ ▸ hr :)] at h
      split at h <;> exact Except.noConfusion h

theorem C5_witness :
    (stepD c5w).program_counter = c5w.program_counter + 2 ∨
    (stepD c5w).program_counter = c5w.program_counter + 4 ∨
    ((opcodeAt c5w &&& 0xF000) >>> 12 = 0x1 ∧
      (stepD c5w).program_counter = opcodeAt c5w &&& 0x0FFF) :=
  C5_pc_parity.2.2 c5w (stepD c5w) rfl

lemma partsPre_off_low (i vx vy cnt k : Nat) (mem : Nat → Nat)
    (p : Nat × Nat) (hp : p ∈ partsPre i vx vy k cnt mem) : 0xF00 ≤ p.1 := by
  obtain ⟨j, _, _, hj⟩ := partsPre_mem_off i vx vy cnt k mem p hp
  rcases hj with h | h <;> (rw [h]; simp only [baseOff]; omega)

/-- C4 counterexample: drawing the one-byte sprite `F0` twice at the
origin onto a framebuffer byte that already holds `F0` (every sprite
pixel already set) leaves the collision register at 0 after the second
draw, although both draws complete and the framebuffer is restored. -/
theorem C4_counterexample :
    c4cex.memory 0x100 = 0xF0 ∧
    opcodeAt c4cex = 0xD001 ∧ opcodeAt (stepD c4cex) = 0xD001 ∧
    execute_cycle c4cex = .ok (stepD c4cex) ∧
    execute_cycle (stepD c4cex) = .ok (stepD (stepD c4cex)) ∧
    (stepD (stepD c4cex)).registers 0xF = 0 ∧
    (stepD (stepD c4cex)).memory 0xF00 = c4cex.memory 0xF00 := by
  exact ⟨by decide, by decide, by decide, rfl, rfl, by decide, by decide⟩

/-- C4 (amended): executing the same in-bounds `Dxyn` draw twice in
succession — same registers `x, y ≠ 15`, no intervening mutation, and a
sprite source lying strictly below the framebuffer region so the draws
cannot rewrite their own source — restores all memory to its value
before the first draw, and leaves register 15 non-zero after the second
draw provided at least one applied sprite part has a bit that was clear
in the framebuffer before the first draw (without that proviso the flag
can end zero, as the counterexample shows). -/
theorem C4_double_draw (s s1 s2 : Interpreter) (op x y i vx vy n : Nat)
    (hx : x = (op &&& 0x0F00) >>> 8) (hy : y = (op &&& 0x00F0) >>> 4)
    (hi : s.index_register = i) (hvx : s.registers x = vx) (hvy : s.registers y = vy)
    (hn : op &&& 0x000F = n)
    (hpc : s.program_counter + 1 < 4096) (hop : opcodeAt s = op)
    (hD : (op &&& 0xF000) >>> 12 = 0xD)
    (hx15 : x ≠ 0xF) (hy15 : y ≠ 0xF)
    (hsrc : i + n ≤ 0xF00)
    (h1 : execute_cycle s = .ok s1)
    (hpc2 : s1.program_counter + 1 < 4096) (hop2 : opcodeAt s1 = op)
    (h2 : execute_cycle s1 = .ok s2)
    (hpix : ∃ p ∈ partsPre i vx vy 0 n s.memory, p.2 &&& s.memory p.1 ≠ p.2) :
    s2.registers 0xF ≠ 0 ∧ ∀ a, s2.memory a = s.memory a := by
  subst hx; subst hy
  have hnle : n ≤ 15 := by
    have := Nat.and_le_right (n := op) (m := 0x000F)
    omega
  have hwin : ∀ j, 0 ≤ j → j < 0 + n → i + j < 0xF00 := by
    intro j _ hj; omega
  -- the first draw
  have hin : loopOk s.index_register (s.registers ((op &&& 0x0F00) >>> 8))
      (s.registers ((op &&& 0x00F0) >>> 4)) 0 (op &&& 0x000F) s.memory = true :=
    exec_dxyn_ok_loopOk s s1 op hpc hop hD h1
  have he1 := exec_dxyn s op hpc hop hD hin
  rw [h1] at he1
  have hs1 := Except.ok.inj he1
  rw [hi, hvx, hvy, hn] at hs1
  have hm1 : ∀ a, s1.memory a =
      List.foldl applyPartMem s.memory (partsFrom i vx vy 0 n s.memory) a := by
    intro a
    rw [hs1]
    show (List.foldl applyPart (setReg s 0xF 0) _).memory a = _
    rw [foldl_applyPart_memory]
    rfl
  have hr1 : ∀ j, j ≠ 0xF → s1.registers j = s.registers j := by
    intro j hj
    rw [hs1]
    show (List.foldl applyPart (setReg s 0xF 0) _).registers j = _
    rw [foldl_applyPart_reg_ne _ _ _ hj]
    simp [setReg, hj]
  have hi1 : s1.index_register = i := by
    rw [hs1]
    show (List.foldl applyPart (setReg s 0xF 0) _).index_register = _
    rw [foldl_applyPart_idx]
    exact hi
  have hPreF : partsFrom i vx vy 0 n s.memory = partsPre i vx vy 0 n s.memory :=
    partsFrom_eq_partsPre i vx vy n 0 s.memory hwin
  have hlow : ∀ p ∈ partsPre i vx vy 0 n s.memory, 0xF00 ≤ p.1 :=
    fun p hp => partsPre_off_low i vx vy n 0 s.memory p hp
  have hmlow : ∀ a, a < 0xF00 → s1.memory a = s.memory a := by
    intro a ha
    rw [hm1 a, hPreF]
    exact foldl_applyPartMem_low _ _ _ hlow ha
  -- the second draw
  have hrx : s1.registers ((op &&& 0x0F00) >>> 8) = vx := by
    rw [hr1 _ hx15]; exact hvx
  have hry : s1.registers ((op &&& 0x00F0) >>> 4) = vy := by
    rw [hr1 _ hy15]; exact hvy
  have hin2 : loopOk s1.index_register (s1.registers ((op &&& 0x0F00) >>> 8))
      (s1.registers ((op &&& 0x00F0) >>> 4)) 0 (op &&& 0x000F) s1.memory = true :=
    exec_dxyn_ok_loopOk s1 s2 op hpc2 hop2 hD h2
  have he2 := exec_dxyn s1 op hpc2 hop2 hD hin2
  rw [h2] at he2
  have hs2 := Except.ok.inj he2
  rw [hi1, hrx, hry, hn] at hs2
  have hps2 : partsFrom i vx vy 0 n s1.memory = partsPre i vx vy 0 n s.memory := by
    rw [partsFrom_eq_partsPre i vx vy n 0 s1.memory hwin]
    exact partsPre_congr i vx vy n 0 s1.memory s.memory
      (fun j hj1 hj2 => hmlow (i + j) (by omega))
  rw [hps2] at hs2
  have hm2 : ∀ a, s2.memory a =
      List.foldl applyPartMem s1.memory (partsPre i vx vy 0 n s.memory) a := by
    intro a
    rw [hs2]
    show (List.foldl applyPart (setReg s1 0xF 0) _).memory a = _
    rw [foldl_applyPart_memory]
    rfl
  have hreg2 : s2.registers 0xF = collOr s1.memory (partsPre i vx vy 0 n s.memory) := by
    rw [hs2]
    show (List.foldl applyPart (setReg s1 0xF 0) _).registers 0xF = _
    rw [foldl_applyPart_reg15]
    show 0 ||| _ = _
    rw [Nat.zero_or]
    rfl
  have hdist : List.Pairwise (fun p q : Nat × Nat => p.1 ≠ q.1)
      (partsPre i vx vy 0 n s.memory) :=
    partsPre_pairwise i vx vy n 0 s.memory (by omega)
  constructor
  · obtain ⟨p, hp, hpne⟩ := hpix
    have hsp : s1.memory p.1 = s.memory p.1 ^^^ p.2 := by
      rw [hm1 p.1, hPreF, foldl_applyPartMem_xorAt, xorAt_of_pairwise _ p hdist hp]
    have hterm : p.2 &&& s1.memory p.1 ≠ 0 := by
      rw [hsp]
      exact and_xor_ne_zero p.2 (s.memory p.1) hpne
    rw [hreg2]
    unfold collOr
    rw [collTerms_of_pairwise _ s1.memory hdist]
    exact orAll_ne_zero _ _ (List.mem_map_of_mem _ hp) hterm
  · intro a
    rw [hm2 a, foldl_applyPartMem_xorAt, hm1 a, hPreF, foldl_applyPartMem_xorAt,
      Nat.xor_assoc, Nat.xor_self, Nat.xor_zero]

theorem C4_witness :
    (stepD (stepD c4s)).registers 0xF ≠ 0 ∧
    ∀ a, (stepD (stepD c4s)).memory a = c4s.memory a :=
  C4_double_draw c4s (stepD c4s) (stepD (stepD c4s)) 0xD001 0 0 0 0 0 1
    (by decide) (by decide) (by decide) (by decide) (by decide) (by decide)
    (by decide) (by decide) (by decide) (by decide) (by decide) (by decide)
    rfl (by decide) (by decide) rfl (by decide)

end Chip8

